import Mathlib

/-!
Verification of the plagiarism-backend matching and scoring engine.

The definitions below are shallow embeddings of the Python sources:
  services/plagiarism_detector.py, services/plagiarism_analyzer.py,
  services/academic_search.py and main.py.
Text is modelled as `List Char`, Python floats as `ℚ`, network calls as an
explicit outcome parameter.  The pairwise similarity function is a faithful
embedding of CPython difflib.SequenceMatcher (isjunk = None, autojunk = True):
seed scan with per-row chain lengths, best-block extension loops, recursive
block decomposition, and ratio = 2*M/T (1 when T = 0).
-/

set_option maxRecDepth 4000

namespace Plag

attribute [local semireducible] Rat.mul Rat.inv Rat.add Rat.sub

/-- Python str.strip(): drop leading and trailing whitespace. -/
def stripChars (t : List Char) : List Char :=
  ((t.dropWhile Char.isWhitespace).reverse.dropWhile Char.isWhitespace).reverse

/-- Helper for whitespace collapsing: the flag records whether the previous
kept character came from a whitespace run. -/
def collapseAux : Bool → List Char → List Char
  | _, [] => []
  | prevWs, c :: cs =>
    if c.isWhitespace then
      if prevWs then collapseAux true cs else ' ' :: collapseAux true cs
    else c :: collapseAux false cs

/-- re.sub of one-or-more whitespace by a single space. -/
def collapseWs (t : List Char) : List Char := collapseAux false t

/-- plagiarism_analyzer._clean_text: collapse whitespace on the stripped text,
then lowercase. -/
def cleanText (t : List Char) : List Char :=
  (collapseWs (stripChars t)).map Char.toLower

/-- Python slicing t[s:e] for 0 ≤ s ≤ e. -/
def slice (t : List Char) (s e : Nat) : List Char := (t.drop s).take (e - s)

/-- Python str.find for a contained substring: index of the first occurrence,
none when absent (the sources always guard find by an `in` test). -/
def findSub (hay pat : List Char) : Option Nat :=
  (List.range (hay.length + 1)).find? (fun i => pat.isPrefixOf (hay.drop i))

/-- Splitter on sentence-ending punctuation, accumulator style
(re.split of one-or-more of . ! ? — empty fragments are filtered later). -/
def splitPunctAux : List Char → List Char → List (List Char)
  | [], acc => [acc.reverse]
  | c :: cs, acc =>
    if c = '.' ∨ c = '!' ∨ c = '?' then acc.reverse :: splitPunctAux cs []
    else splitPunctAux cs (c :: acc)

/-- plagiarism_detector._split_into_sentences: split on punctuation, strip each
fragment, keep the non-empty ones. -/
def splitSentences (t : List Char) : List (List Char) :=
  ((splitPunctAux t []).map stripChars).filter (fun s => s ≠ [])

/-- Splitter on whitespace used for Python str.split(). -/
def splitWsAux : List Char → List Char → List (List Char)
  | [], acc => [acc.reverse]
  | c :: cs, acc =>
    if c.isWhitespace then acc.reverse :: splitWsAux cs []
    else splitWsAux cs (c :: acc)

/-- Python str.split() with no argument: whitespace-separated words. -/
def wordsOf (t : List Char) : List (List Char) :=
  (splitWsAux t []).filter (fun s => s ≠ [])

/-- Python \w for the ASCII range (letters, digits, underscore). -/
def isWordChar (c : Char) : Bool := c.isAlphanum || c = '_'

/-- plagiarism_detector._calculate_similarity normalization:
lowercase, then drop characters that are neither word characters nor
whitespace. -/
def normalizeText (t : List Char) : List Char :=
  (t.map Char.toLower).filter (fun c => isWordChar c || c.isWhitespace)

/-! ## difflib.SequenceMatcher embedding -/

/-- A best-block candidate (besti, bestj, bestsize) of find_longest_match. -/
structure Best where
  bi : Nat
  bj : Nat
  k : Nat
deriving DecidableEq

/-- Autojunk popularity test of SequenceMatcher.__chain_b (isjunk = None):
with len(b) ≥ 200, elements occurring more than len(b)//100 + 1 times are
dropped from b2j. -/
def isPopular (b : List Char) (c : Char) : Bool :=
  decide (200 ≤ b.length) && decide (b.length / 100 + 1 < b.count c)

/-- Columns scanned for row i of the seed loop: b2j.get(a[i]) restricted to
[blo, bhi), in ascending order; empty when a[i] was purged as popular. -/
def seedCols (a b : List Char) (blo bhi i : Nat) : List Nat :=
  if isPopular b (a.getD i ' ') then []
  else (List.range bhi).filter (fun j => decide (blo ≤ j) && (b.getD j ' ' = a.getD i ' '))

/-- Inner loop of find_longest_match over the seed columns of row i:
newj2len[j] = j2len.get(j-1, 0) + 1, best updated on strict improvement. -/
def innerFold (i : Nat) (prev : Nat → Nat) :
    List Nat → (Nat → Nat) → Best → ((Nat → Nat) × Best)
  | [], cur, best => (cur, best)
  | j :: js, cur, best =>
    let k := if j = 0 then 1 else prev (j - 1) + 1
    let cur' := fun j' => if j' = j then k else cur j'
    let best' := if best.k < k then ⟨i + 1 - k, j + 1 - k, k⟩ else best
    innerFold i prev js cur' best'

/-- Outer loop of find_longest_match over the rows of [alo, ahi). -/
def rowsFold (a b : List Char) (blo bhi : Nat) :
    List Nat → (Nat → Nat) → Best → Best
  | [], _, best => best
  | i :: is, prev, best =>
    let (cur, best') := innerFold i prev (seedCols a b blo bhi i) (fun _ => 0) best
    rowsFold a b blo bhi is cur best'

/-- Result of the seed scan of find_longest_match, before the extension
loops (initial best = (alo, blo, 0)). -/
def seedBest (a b : List Char) (alo ahi blo bhi : Nat) : Best :=
  rowsFold a b blo bhi (List.range' alo (ahi - alo)) (fun _ => 0) ⟨alo, blo, 0⟩

/-- First extension loop: grow the best block to the left over equal
elements (bjunk is empty since isjunk is None). Fuel bounds the iteration
count; the call site passes the current besti, which always suffices. -/
def extLeft (a b : List Char) (alo blo : Nat) : Nat → Best → Best
  | 0, best => best
  | f + 1, best =>
    if alo < best.bi ∧ blo < best.bj ∧
        a.getD (best.bi - 1) ' ' = b.getD (best.bj - 1) ' ' then
      extLeft a b alo blo f ⟨best.bi - 1, best.bj - 1, best.k + 1⟩
    else best

/-- Second extension loop: grow the best block to the right over equal
elements. Fuel bounds the iteration count; the call site passes ahi. -/
def extRight (a b : List Char) (ahi bhi : Nat) : Nat → Best → Best
  | 0, best => best
  | f + 1, best =>
    if best.bi + best.k < ahi ∧ best.bj + best.k < bhi ∧
        a.getD (best.bi + best.k) ' ' = b.getD (best.bj + best.k) ' ' then
      extRight a b ahi bhi f ⟨best.bi, best.bj, best.k + 1⟩
    else best

/-- find_longest_match on a[alo:ahi] and b[blo:bhi] (isjunk = None, so the
two junk-extension loops are no-ops and are omitted). -/
def findLongestMatch (a b : List Char) (alo ahi blo bhi : Nat) : Best :=
  let s := seedBest a b alo ahi blo bhi
  let s1 := extLeft a b alo blo s.bi s
  extRight a b ahi bhi ahi s1

/-- Total size of the matching blocks of get_matching_blocks, by recursive
decomposition around the longest match (the queue order and the collapsing
of adjacent blocks do not change the sum). Fuel dominates the range sizes;
the wrapper below supplies enough of it. -/
def mtF (a b : List Char) : Nat → Nat → Nat → Nat → Nat → Nat
  | 0, _, _, _, _ => 0
  | f + 1, alo, ahi, blo, bhi =>
    if ahi ≤ alo ∨ bhi ≤ blo then 0
    else
      let m := findLongestMatch a b alo ahi blo bhi
      if m.k = 0 then 0
      else m.k + mtF a b f alo m.bi blo m.bj + mtF a b f (m.bi + m.k) ahi (m.bj + m.k) bhi

/-- M = number of matched elements between a and b. -/
def matchesTotal (a b : List Char) : Nat :=
  mtF a b (a.length + b.length + 1) 0 a.length 0 b.length

/-- SequenceMatcher.ratio(): 2*M/T, and 1.0 when T = 0. -/
def seqSimilarity (a b : List Char) : ℚ :=
  if a.length + b.length = 0 then 1
  else (2 * matchesTotal a b : ℚ) / (a.length + b.length)

/-- plagiarism_detector._calculate_similarity: normalize both texts, then
the difflib ratio. -/
def calcSimilarity (t1 t2 : List Char) : ℚ :=
  seqSimilarity (normalizeText t1) (normalizeText t2)

/-- Row-major chain length: the value stored by the seed loop at (i, j),
i.e. the length of the seed chain ending at row i, column j. Used only in
proofs about the seed loop. -/
def chainLen (a b : List Char) (alo ahi blo bhi : Nat) : Nat → Nat → Nat
  | 0, j =>
    if alo ≤ 0 ∧ 0 < ahi ∧ blo ≤ j ∧ j < bhi ∧
        b.getD j ' ' = a.getD 0 ' ' ∧ ¬ isPopular b (a.getD 0 ' ') then 1 else 0
  | i + 1, 0 =>
    if alo ≤ i + 1 ∧ i + 1 < ahi ∧ blo ≤ 0 ∧ 0 < bhi ∧
        b.getD 0 ' ' = a.getD (i + 1) ' ' ∧ ¬ isPopular b (a.getD (i + 1) ' ') then 1 else 0
  | i + 1, j + 1 =>
    if alo ≤ i + 1 ∧ i + 1 < ahi ∧ blo ≤ j + 1 ∧ j + 1 < bhi ∧
        b.getD (j + 1) ' ' = a.getD (i + 1) ' ' ∧ ¬ isPopular b (a.getD (i + 1) ' ') then
      chainLen a b alo ahi blo bhi i j + 1
    else 0

/-- Invariant predicate: the best block lies inside the ranges. -/
def InRanges (alo ahi blo bhi : Nat) (s : Best) : Prop :=
  alo ≤ s.bi ∧ blo ≤ s.bj ∧ s.bi + s.k ≤ ahi ∧ s.bj + s.k ≤ bhi

/-- Invariant predicate for a row map: entries are chain lengths bounded by
the row and column positions. -/
def RowBound (alo blo r : Nat) (g : Nat → Nat) : Prop :=
  ∀ j', alo + g j' ≤ r ∧ (1 ≤ g j' → blo + g j' ≤ j' + 1)

/-- The row map handed from the previous row of the seed loop: zero on the
first row, else the chain lengths of the previous row. -/
def prevRow (a : List Char) (lo hi i j' : Nat) : Nat :=
  if i = 0 then 0 else chainLen a a lo hi lo hi (i - 1) j'

/-! ## plagiarism_detector.py -/

/-- One parsed search result (title, url, snippet all present and
non-empty, as enforced by the parsing loops). -/
structure SearchResult where
  title : String
  url : String
  snippet : String
deriving DecidableEq

/-- A match produced by the web-search detection path. -/
structure DMatch where
  originalText : List Char
  matchedText : List Char
  similarity : ℚ
  sourceUrl : String
  sourceTitle : String
  matchType : String
  sentenceIndex : Nat
deriving DecidableEq

/-- plagiarism_detector._classify_match. -/
def classifyMatch (s : ℚ) : String :=
  if 9/10 ≤ s then "exact"
  else if 3/4 ≤ s then "near_exact"
  else if 3/5 ≤ s then "paraphrased"
  else "semantic"

/-- self.similarity_threshold = 0.6. -/
def similarityThreshold : ℚ := 3/5

/-- Matches one sentence contributes in plagiarism_detector._search_batch:
every search result whose snippet scores at least the threshold. -/
def sentenceMatches (idx : Nat) (sentence : List Char) (results : List SearchResult) :
    List DMatch :=
  results.filterMap fun r =>
    let sim := calcSimilarity sentence r.snippet.toList
    if similarityThreshold ≤ sim then
      some ⟨sentence, r.snippet.toList, sim, r.url, r.title, classifyMatch sim, idx⟩
    else none

/-- plagiarism_detector._search_batch over all sentences, with global
sentence indices. Batching in threes only inserts delays between network
calls, so the produced match list is the concatenation over sentences. -/
def searchBatchMatches (sentences : List (List Char))
    (resultsFor : Nat → List SearchResult) : List DMatch :=
  (List.range sentences.length).flatMap fun i =>
    sentenceMatches i (sentences.getD i []) (resultsFor i)

/-- plagiarism_detector._calculate_overall_similarity: fraction of distinct
sentence indices carrying at least one match, capped at 1. -/
def detectorOverallSimilarity (sentences : List (List Char)) (matchList : List DMatch) : ℚ :=
  if sentences = [] ∨ matchList = [] then 0
  else min (((matchList.map DMatch.sentenceIndex).toFinset.card : ℚ) / sentences.length) 1

/-- The analysis result record of plagiarism_detector.analyze_document
(the source list is projected to its urls). -/
structure DetectorResult where
  overallSimilarity : ℚ
  matchList : List DMatch
  sourceUrls : List String
  totalSentencesAnalyzed : Nat
  matchesFound : Nat
  errorMsg : Option String
deriving DecidableEq

/-- plagiarism_detector._create_empty_result. -/
def emptyDetectorResult : DetectorResult :=
  { overallSimilarity := 0, matchList := [], sourceUrls := [],
    totalSentencesAnalyzed := 0, matchesFound := 0, errorMsg := none }

/-- plagiarism_detector._extract_sources, projected to the deduplicated urls
(first occurrence kept). -/
def extractSourceUrls (matchList : List DMatch) : List String :=
  (matchList.map DMatch.sourceUrl).eraseDups

/-- Sentences retained for analysis: at least min_sentence_length = 10 words. -/
def validSentences (t : List Char) : List (List Char) :=
  (splitSentences t).filter (fun s => 10 ≤ (wordsOf s).length)

/-- plagiarism_detector.analyze_document with the network abstracted by
resultsFor (the comprehensive search for the sentence at each index). -/
def detectorAnalyze (text : List Char) (resultsFor : Nat → List SearchResult) :
    DetectorResult :=
  let vs := validSentences text
  if vs = [] then emptyDetectorResult
  else
    let ms := searchBatchMatches vs resultsFor
    { overallSimilarity := detectorOverallSimilarity vs ms,
      matchList := ms,
      sourceUrls := extractSourceUrls ms,
      totalSentencesAnalyzed := vs.length,
      matchesFound := ms.length,
      errorMsg := none }

/-! ## plagiarism_analyzer.py -/

/-- A match produced by the static-corpus analyzer. Similarities there
live on a 0–100 scale; confidence is similarity/100. -/
structure AMatch where
  originalText : List Char
  matchedText : String
  similarity : ℚ
  startIndex : Nat
  endIndex : Nat
  sourceId : String
  matchType : String
  confidence : ℚ
deriving DecidableEq

/-- PlagiarismAnalyzer.known_sources, projected to source id and phrase
list, in insertion order. -/
def knownSources : List (String × List String) :=
  [("src_001",
    ["artificial intelligence and machine learning have revolutionized",
     "machine learning algorithms",
     "artificial intelligence systems",
     "deep learning networks",
     "neural networks and artificial intelligence"]),
   ("src_002",
    ["climate change represents one of the most pressing challenges",
     "global warming and climate change",
     "rising temperatures and melting ice caps",
     "environmental impact of climate change"]),
   ("src_003",
    ["human brain contains approximately 86 billion neurons",
     "neurons connected through synapses",
     "brain neural networks",
     "cognitive neuroscience research"]),
   ("src_004",
    ["machine learning enables computers to learn from experience",
     "supervised and unsupervised learning",
     "machine learning algorithms and data processing",
     "predictive modeling with machine learning"])]

/-- The generic academic filler phrases of _find_partial_matches. -/
def commonPhrases : List String :=
  ["research shows that", "studies have shown", "according to research",
   "it is important to note", "in conclusion", "furthermore", "however",
   "therefore"]

/-- Corpus part of plagiarism_analyzer._find_matches: for each known phrase
contained in the cleaned text, a match at its first occurrence; similarity
is 95 when the extracted span equals the phrase (it always does), else 85. -/
def corpusMatches (clean : List Char) : List AMatch :=
  (knownSources.map fun src =>
    src.2.filterMap fun phrase =>
      let pl := phrase.toList.map Char.toLower
      match findSub clean pl with
      | none => none
      | some s =>
        let e := s + pl.length
        let sim : ℚ := if pl = slice clean s e then 95 else 85
        some { originalText := slice clean s e, matchedText := phrase,
               similarity := sim, startIndex := s, endIndex := e,
               sourceId := src.1,
               matchType := if 95 ≤ sim then "exact" else "paraphrased",
               confidence := sim / 100 }).flatten

/-- plagiarism_analyzer._find_partial_matches: each common phrase contained
in the text yields a fixed common_phrase match with similarity 70. -/
def partialMatches (clean : List Char) : List AMatch :=
  commonPhrases.filterMap fun phrase =>
    match findSub clean phrase.toList with
    | none => none
    | some s =>
      some { originalText := phrase.toList, matchedText := phrase,
             similarity := 70, startIndex := s,
             endIndex := s + phrase.toList.length,
             sourceId := "common_phrase", matchType := "common_phrase",
             confidence := 7/10 }

/-- Deduplication key of plagiarism_analyzer._deduplicate_matches. -/
def dedupKey (m : AMatch) : Nat × Nat × List Char :=
  (m.startIndex, m.endIndex, m.originalText)

/-- Loop of _deduplicate_matches: keep a match when its key was not seen
yet (so the first occurrence in list order wins). -/
def dedupGo (seen : List (Nat × Nat × List Char)) : List AMatch → List AMatch
  | [] => []
  | m :: ms =>
    if dedupKey m ∈ seen then dedupGo seen ms
    else m :: dedupGo (dedupKey m :: seen) ms

/-- plagiarism_analyzer._deduplicate_matches. -/
def deduplicateMatches (ms : List AMatch) : List AMatch := dedupGo [] ms

/-- Stable descending insertion by similarity: an element is placed before
the first strictly smaller one, so equal similarities keep their relative
order — the semantics of Python list.sort(key=similarity, reverse=True). -/
def insertDesc (m : AMatch) : List AMatch → List AMatch
  | [] => [m]
  | x :: xs =>
    if x.similarity ≤ m.similarity then m :: x :: xs
    else x :: insertDesc m xs

/-- Stable sort by descending similarity. -/
def sortBySimDesc (ms : List AMatch) : List AMatch := ms.foldr insertDesc []

/-- plagiarism_analyzer._find_matches on the cleaned text: corpus matches,
then partial matches, deduplicated and sorted by descending similarity. -/
def analyzerFindMatches (clean : List Char) : List AMatch :=
  sortBySimDesc (deduplicateMatches (corpusMatches clean ++ partialMatches clean))

/-- Match list of plagiarism_analyzer.analyze_document: _find_matches
applied to the _clean_text of the raw document. -/
def analyzerAnalyzeMatches (text : List Char) : List AMatch :=
  analyzerFindMatches (cleanText text)

/-- Offsets covered by at least one match (the covered_positions set of
_calculate_overall_similarity). -/
def coveredOffsets (ms : List AMatch) : Finset ℕ :=
  ms.foldl (fun s m => s ∪ Finset.Ico m.startIndex m.endIndex) ∅

/-- plagiarism_analyzer._calculate_overall_similarity: covered characters
over total characters, clamped to [0, 1]; 0 when there are no matches. -/
def analyzerOverallSimilarity (text : List Char) (ms : List AMatch) : ℚ :=
  if ms = [] then 0
  else
    let sim : ℚ :=
      if 0 < text.length then ((coveredOffsets ms).card : ℚ) / text.length else 0
    min (max sim 0) 1

/-- plagiarism_analyzer._determine_risk_level. -/
def determineRiskLevel (s : ℚ) : String :=
  if 4/5 ≤ s then "High"
  else if 2/5 ≤ s then "Medium"
  else "Low"

/-! ## main.py -/

/-- Risk classification inside main.simulate_plagiarism_check. -/
def simulateRiskLevel (s : ℚ) : String :=
  if s < 1/10 then "Low"
  else if s < 1/4 then "Medium"
  else "High"

/-- A match of main.create_realistic_matches, with the source metadata
projected to the running source number (the source id is
"src_" followed by that number zero-padded to three digits). -/
structure MainMatch where
  originalText : List Char
  matchedText : String
  similarity : ℚ
  startIndex : Nat
  endIndex : Nat
  sourceNum : Nat
  matchType : String
deriving DecidableEq

/-- The pattern table of main.create_realistic_matches:
(pattern, matched text, similarity). -/
def mainPatterns : List (String × String × ℚ) :=
  [("artificial intelligence",
    "Artificial intelligence and machine learning have revolutionized", 95),
   ("machine learning",
    "Machine learning enables computers to learn from experience", 88),
   ("climate change",
    "Climate change represents one of the most pressing challenges", 92),
   ("data analysis",
    "Data analysis techniques are essential for modern research", 85),
   ("research methodology",
    "Research methodology forms the backbone of academic studies", 90),
   ("literature review",
    "Literature review provides comprehensive overview of existing work", 87)]

/-- main.create_realistic_matches: for each pattern found in the lowercased
text, a match quoting a stripped context window of the original text
(extended to at least 30 characters when possible), positioned at the
pattern's first occurrence; type is exact above similarity 90. -/
def createRealisticMatches (text : List Char) : List MainMatch :=
  let textLower := text.map Char.toLower
  mainPatterns.foldl
    (fun acc p =>
      match findSub textLower p.1.toList with
      | none => acc
      | some s =>
        let ctxStart := s - 5
        let ctxEnd := min text.length (s + p.1.toList.length + 45)
        let orig := stripChars (slice text ctxStart ctxEnd)
        let orig :=
          if orig.length < 30 then stripChars (slice text ctxStart (min text.length (s + 60)))
          else orig
        acc ++ [{ originalText := orig, matchedText := p.2.1, similarity := p.2.2,
                  startIndex := s, endIndex := s + p.1.toList.length,
                  sourceNum := acc.length + 1,
                  matchType := if (90 : ℚ) < p.2.2 then "exact" else "paraphrased" }])
    []

/-- The completed result of main.simulate_plagiarism_check, with the id
and timestamp fields omitted and the source list projected away. -/
structure MainResult where
  overallSimilarity : ℚ
  riskLevel : String
  matchList : List MainMatch
  wordCount : Nat
  characterCount : Nat
deriving DecidableEq

/-- main.simulate_plagiarism_check: overall similarity blends character
coverage (weight 0.6) and mean match similarity over 100 (weight 0.4),
capped at 0.95; 0 with no matches; risk from the 0.10/0.25 table. -/
def simulatePlagiarismCheck (text : List Char) : MainResult :=
  let ms := createRealisticMatches text
  let overall : ℚ :=
    if ms = [] then 0
    else
      let totalMatched := (ms.map (fun m => m.originalText.length)).sum
      let coverage := min ((totalMatched : ℚ) / text.length) 1
      let avg := ((ms.map MainMatch.similarity).sum) / ms.length
      min (coverage * (6/10) + (avg / 100) * (4/10)) (95/100)
  { overallSimilarity := overall,
    riskLevel := simulateRiskLevel overall,
    matchList := ms,
    wordCount := (wordsOf text).length,
    characterCount := text.length }

/-- main.analyze_document after text extraction: empty text or a stripped
length below 10 characters raises ValueError; otherwise the simulated
check's completed result is returned. -/
def mainAnalyzeDocument (text : List Char) : Except String MainResult :=
  if text = [] ∨ (stripChars text).length < 10 then
    Except.error "Document appears to be empty or too short for analysis"
  else
    Except.ok (simulatePlagiarismCheck text)

/-! ## Provider adapters (plagiarism_detector._search_bing,
academic_search._search_arxiv) -/

/-- Modelled from the spec (§4.7, coverage-based policy): mark every
character offset covered by at least one surviving match, no double
counting; overallSimilarity = |covered offsets| / |document length|,
clamped to [0,1]; 0 when no matches survive. -/
def specCoverageSimilarity (docLen : Nat) (ranges : List (Nat × Nat)) : ℚ :=
  if ranges = [] then 0
  else
    let covered := ranges.foldl (fun s r => s ∪ Finset.Ico r.1 r.2) (∅ : Finset ℕ)
    min (max ((covered.card : ℚ) / docLen) 0) 1

/-- Modelled from the amended sentence-fraction policy: distinct matched
sentence indices over sentence count, capped at 1. -/
def specSentenceFraction (nSentences : Nat) (idxs : List Nat) : ℚ :=
  if nSentences = 0 ∨ idxs = [] then 0
  else min ((idxs.toFinset.card : ℚ) / nSentences) 1

/-! ## Helper lemmas -/

lemma findSub_slice {hay pat : List Char} {i : Nat} (h : findSub hay pat = some i) :
    slice hay i (i + pat.length) = pat := by
  have hp := List.find?_some h
  obtain ⟨t, ht⟩ := List.isPrefixOf_iff_prefix.mp hp
  unfold slice
  rw [Nat.add_sub_cancel_left, ← ht, List.take_left]

lemma coveredOffsets_go :
    ∀ (l : List AMatch) (s₀ : Finset ℕ),
      l.foldl (fun s m => s ∪ Finset.Ico m.startIndex m.endIndex) s₀
        = s₀ ∪ coveredOffsets l := by
  intro l
  induction l with
  | nil => intro s₀; simp [coveredOffsets]
  | cons m l ih =>
    intro s₀
    simp only [List.foldl_cons, coveredOffsets]
    rw [ih (s₀ ∪ Finset.Ico m.startIndex m.endIndex),
        ih (∅ ∪ Finset.Ico m.startIndex m.endIndex)]
    simp [Finset.union_assoc]

lemma coveredOffsets_cons (m : AMatch) (ms : List AMatch) :
    coveredOffsets (m :: ms) = Finset.Ico m.startIndex m.endIndex ∪ coveredOffsets ms := by
  unfold coveredOffsets
  simp only [List.foldl_cons]
  rw [coveredOffsets_go]
  simp [coveredOffsets]

lemma coveredOffsets_append_single (ms : List AMatch) (m : AMatch) :
    coveredOffsets (ms ++ [m]) = coveredOffsets ms ∪ Finset.Ico m.startIndex m.endIndex := by
  unfold coveredOffsets
  rw [List.foldl_append]
  simp only [List.foldl_cons, List.foldl_nil]

lemma coveredOffsets_subset_range {ms : List AMatch} {L : Nat}
    (h : ∀ x ∈ ms, x.endIndex ≤ L) : coveredOffsets ms ⊆ Finset.range L := by
  induction ms with
  | nil => simp [coveredOffsets]
  | cons m ms ih =>
    rw [coveredOffsets_cons]
    apply Finset.union_subset
    · intro x hx
      rw [Finset.mem_Ico] at hx
      rw [Finset.mem_range]
      exact lt_of_lt_of_le hx.2 (h m (by simp))
    · exact ih (fun x hx => h x (by simp [hx]))

lemma mem_insertDesc {y m : AMatch} : ∀ {l : List AMatch},
    y ∈ insertDesc m l ↔ y = m ∨ y ∈ l := by
  intro l
  induction l with
  | nil => simp [insertDesc]
  | cons x xs ih =>
    simp only [insertDesc]
    split
    · simp
    · simp only [List.mem_cons, ih]
      tauto

lemma insertDesc_perm (m : AMatch) : ∀ (l : List AMatch), List.Perm (insertDesc m l) (m :: l) := by
  intro l
  induction l with
  | nil => simp [insertDesc]
  | cons x xs ih =>
    simp only [insertDesc]
    split
    · exact List.Perm.refl _
    · exact (List.Perm.cons x ih).trans (List.Perm.swap m x xs)

lemma sortBySimDesc_perm (l : List AMatch) : List.Perm (sortBySimDesc l) l := by
  induction l with
  | nil => simp [sortBySimDesc]
  | cons x xs ih =>
    have : sortBySimDesc (x :: xs) = insertDesc x (sortBySimDesc xs) := rfl
    rw [this]
    exact (insertDesc_perm x _).trans (List.Perm.cons x ih)

lemma insertDesc_sorted {m : AMatch} : ∀ {l : List AMatch},
    l.Sorted (fun x y => y.similarity ≤ x.similarity) →
    (insertDesc m l).Sorted (fun x y => y.similarity ≤ x.similarity) := by
  intro l
  induction l with
  | nil => intro _; simp [insertDesc]
  | cons x xs ih =>
    intro hs
    rw [List.sorted_cons] at hs
    simp only [insertDesc]
    split
    · rename_i hx
      rw [List.sorted_cons]
      constructor
      · intro y hy
        rcases List.mem_cons.mp hy with h | h
        · rw [h]; exact hx
        · exact le_trans (hs.1 y h) hx
      · rw [List.sorted_cons]; exact hs
    · rename_i hx
      rw [List.sorted_cons]
      constructor
      · intro y hy
        rcases mem_insertDesc.mp hy with h | h
        · rw [h]; exact le_of_lt (lt_of_not_le hx)
        · exact hs.1 y h
      · exact ih hs.2

lemma sortBySimDesc_sorted (l : List AMatch) :
    (sortBySimDesc l).Sorted (fun x y => y.similarity ≤ x.similarity) := by
  induction l with
  | nil => simp [sortBySimDesc]
  | cons x xs ih => exact insertDesc_sorted ih

lemma dedupGo_not_seen : ∀ (l : List AMatch) (seen : List (Nat × Nat × List Char)),
    ∀ x ∈ dedupGo seen l, dedupKey x ∉ seen := by
  intro l
  induction l with
  | nil => intro seen x hx; simp [dedupGo] at hx
  | cons m ms ih =>
    intro seen x hx
    simp only [dedupGo] at hx
    split at hx
    · exact ih seen x hx
    · rcases List.mem_cons.mp hx with h | h
      · rename_i hnot
        rw [h]; exact hnot
      · intro hmem
        exact ih _ x h (List.mem_cons_of_mem _ hmem)

lemma dedupGo_pairwise : ∀ (l : List AMatch) (seen : List (Nat × Nat × List Char)),
    (dedupGo seen l).Pairwise (fun x y => dedupKey x ≠ dedupKey y) := by
  intro l
  induction l with
  | nil => intro seen; simp [dedupGo]
  | cons m ms ih =>
    intro seen
    simp only [dedupGo]
    split
    · exact ih seen
    · rw [List.pairwise_cons]
      refine ⟨?_, ih _⟩
      intro y hy
      have := dedupGo_not_seen ms (dedupKey m :: seen) y hy
      intro heq
      exact this (by rw [← heq]; exact List.mem_cons_self _ _)

lemma dedupGo_subset : ∀ (l : List AMatch) (seen : List (Nat × Nat × List Char)),
    ∀ x ∈ dedupGo seen l, x ∈ l := by
  intro l
  induction l with
  | nil => intro seen x hx; simp [dedupGo] at hx
  | cons m ms ih =>
    intro seen x hx
    simp only [dedupGo] at hx
    split at hx
    · exact List.mem_cons_of_mem _ (ih seen x hx)
    · rcases List.mem_cons.mp hx with h | h
      · rw [h]; exact List.mem_cons_self _ _
      · exact List.mem_cons_of_mem _ (ih _ x h)

lemma mem_analyzerFindMatches {clean : List Char} {m : AMatch}
    (h : m ∈ analyzerFindMatches clean) :
    m ∈ corpusMatches clean ∨ m ∈ partialMatches clean := by
  unfold analyzerFindMatches at h
  have h1 := (sortBySimDesc_perm _).mem_iff.mp h
  have h2 := dedupGo_subset _ [] m h1
  exact List.mem_append.mp h2

lemma mem_corpusMatches {clean : List Char} {m : AMatch}
    (h : m ∈ corpusMatches clean) :
    m.similarity = 95 ∧ m.matchType = "exact" ∧ m.confidence = 95 / 100 ∧
      slice clean m.startIndex m.endIndex = m.originalText ∧
      m.endIndex = m.startIndex + m.originalText.length := by
  unfold corpusMatches at h
  rw [List.mem_flatten] at h
  obtain ⟨l, hl, hm⟩ := h
  rw [List.mem_map] at hl
  obtain ⟨src, _, rfl⟩ := hl
  rw [List.mem_filterMap] at hm
  obtain ⟨phrase, _, hmk⟩ := hm
  simp only at hmk
  rcases hfind : findSub clean (List.map Char.toLower phrase.toList) with _ | s <;>
    rw [hfind] at hmk
  · exact absurd hmk (by simp)
  · simp only at hmk
    have hslice : slice clean s (s + (List.map Char.toLower phrase.toList).length)
        = List.map Char.toLower phrase.toList := findSub_slice hfind
    rw [if_pos hslice.symm] at hmk
    rw [if_pos (le_refl (95 : ℚ))] at hmk
    rw [Option.some_inj] at hmk
    subst hmk
    refine ⟨rfl, rfl, rfl, rfl, ?_⟩
    show s + (List.map Char.toLower phrase.toList).length = s + _
    rw [hslice]

lemma mem_partialMatches {clean : List Char} {m : AMatch}
    (h : m ∈ partialMatches clean) :
    m.similarity = 70 ∧ m.matchType = "common_phrase" ∧ m.confidence = 7 / 10 ∧
      slice clean m.startIndex m.endIndex = m.originalText ∧
      m.endIndex = m.startIndex + m.originalText.length := by
  unfold partialMatches at h
  rw [List.mem_filterMap] at h
  obtain ⟨phrase, _, hmk⟩ := h
  rcases hfind : findSub clean phrase.toList with _ | s <;> rw [hfind] at hmk
  · exact absurd hmk (by simp)
  · simp only [Option.some_inj] at hmk
    subst hmk
    exact ⟨rfl, rfl, rfl, findSub_slice hfind, rfl⟩

lemma analyzerOS_empty (text : List Char) : analyzerOverallSimilarity text [] = 0 := by
  unfold analyzerOverallSimilarity
  rw [if_pos rfl]

lemma analyzerOS_nonneg (text : List Char) (ms : List AMatch) :
    0 ≤ analyzerOverallSimilarity text ms := by
  unfold analyzerOverallSimilarity
  split
  · norm_num
  · exact le_min (le_max_right _ _) (by norm_num)

lemma analyzerOS_eq_coverage (text : List Char) (ms : List AMatch) (hne : ms ≠ [])
    (hb : ∀ x ∈ ms, x.endIndex ≤ text.length) :
    analyzerOverallSimilarity text ms = ((coveredOffsets ms).card : ℚ) / text.length := by
  unfold analyzerOverallSimilarity
  rw [if_neg hne]
  dsimp only
  by_cases hL : 0 < text.length
  · rw [if_pos hL]
    have hsub := coveredOffsets_subset_range hb
    have hcard : (coveredOffsets ms).card ≤ text.length := by
      simpa using Finset.card_le_card hsub
    have h0 : (0 : ℚ) ≤ ((coveredOffsets ms).card : ℚ) / text.length := by positivity
    have h1 : ((coveredOffsets ms).card : ℚ) / text.length ≤ 1 := by
      rw [div_le_one (by exact_mod_cast hL)]
      exact_mod_cast hcard
    rw [max_eq_left h0, min_eq_left h1]
  · rw [if_neg hL]
    have hz : text.length = 0 := by omega
    rw [hz]
    simp

lemma analyzerOS_eq_spec (text : List Char) (ms : List AMatch) :
    analyzerOverallSimilarity text ms
      = specCoverageSimilarity text.length (ms.map fun m => (m.startIndex, m.endIndex)) := by
  have hfold : (ms.map fun m => (m.startIndex, m.endIndex)).foldl
      (fun s r => s ∪ Finset.Ico r.1 r.2) ∅ = coveredOffsets ms := by
    rw [List.foldl_map]
    rfl
  by_cases hne : ms = []
  · subst hne
    simp [analyzerOverallSimilarity, specCoverageSimilarity]
  · have hmapne : ms.map (fun m => (m.startIndex, m.endIndex)) ≠ [] := by simpa using hne
    unfold analyzerOverallSimilarity specCoverageSimilarity
    rw [if_neg hne, if_neg hmapne]
    dsimp only
    rw [hfold]
    by_cases hL : 0 < text.length
    · rw [if_pos hL]
    · rw [if_neg hL]
      have hz : text.length = 0 := by omega
      rw [hz]
      simp

lemma detectorOS_eq_spec (sents : List (List Char)) (ms : List DMatch) :
    detectorOverallSimilarity sents ms
      = specSentenceFraction sents.length (ms.map DMatch.sentenceIndex) := by
  unfold detectorOverallSimilarity specSentenceFraction
  by_cases h : sents = [] ∨ ms = []
  · have h2 : sents.length = 0 ∨ ms.map DMatch.sentenceIndex = [] := by
      rcases h with h | h
      · left; simp [h]
      · right; simp [h]
    rw [if_pos h, if_pos h2]
  · push_neg at h
    have h2 : ¬ (sents.length = 0 ∨ ms.map DMatch.sentenceIndex = []) := by
      push_neg
      exact ⟨by simpa using h.1, by simpa using h.2⟩
    rw [if_neg (not_or.mpr h), if_neg h2]

/-! ## difflib: bounds of find_longest_match and the ratio -/

/-- Range bounds of the columns scanned by the seed loop. -/
lemma mem_seedCols {a b : List Char} {blo bhi i j : Nat}
    (h : j ∈ seedCols a b blo bhi i) : blo ≤ j ∧ j < bhi := by
  unfold seedCols at h
  split at h
  · simp at h
  · rw [List.mem_filter, List.mem_range] at h
    refine ⟨?_, h.1⟩
    have := h.2
    simp only [Bool.and_eq_true, decide_eq_true_eq] at this
    exact this.1

lemma innerFold_bounds {a b : List Char} {alo ahi blo bhi i : Nat}
    (hi1 : alo ≤ i) (hi2 : i < ahi) :
    ∀ (js : List Nat) (prev cur : Nat → Nat) (best : Best),
      (∀ j ∈ js, blo ≤ j ∧ j < bhi) →
      RowBound alo blo i prev →
      RowBound alo blo (i + 1) cur →
      InRanges alo ahi blo bhi best →
      InRanges alo ahi blo bhi (innerFold i prev js cur best).2
        ∧ RowBound alo blo (i + 1) (innerFold i prev js cur best).1 := by
  intro js
  induction js with
  | nil =>
    intro prev cur best _ _ hcur hbest
    exact ⟨hbest, hcur⟩
  | cons j js ih =>
    intro prev cur best hjs hprev hcur hbest
    have hj := hjs j (List.mem_cons_self _ _)
    have hk1 : alo + (if j = 0 then 1 else prev (j - 1) + 1) ≤ i + 1 := by
      split
      · omega
      · have := (hprev (j - 1)).1
        omega
    have hk2 : blo + (if j = 0 then 1 else prev (j - 1) + 1) ≤ j + 1 := by
      split
      · omega
      · rcases Nat.eq_zero_or_pos (prev (j - 1)) with hz | hp
        · rw [hz]; omega
        · have := (hprev (j - 1)).2 hp
          omega
    have hstep : innerFold i prev (j :: js) cur best
        = innerFold i prev js
            (fun j' => if j' = j then (if j = 0 then 1 else prev (j - 1) + 1) else cur j')
            (if best.k < (if j = 0 then 1 else prev (j - 1) + 1) then
              ⟨i + 1 - (if j = 0 then 1 else prev (j - 1) + 1),
               j + 1 - (if j = 0 then 1 else prev (j - 1) + 1),
               (if j = 0 then 1 else prev (j - 1) + 1)⟩ else best) := rfl
    rw [hstep]
    apply ih
    · exact fun x hx => hjs x (List.mem_cons_of_mem _ hx)
    · exact hprev
    · intro j'
      by_cases hjj : j' = j
      · subst hjj
        constructor
        · simpa using hk1
        · intro _
          simpa using hk2
      · constructor
        · simp only [if_neg hjj]
          exact (hcur j').1
        · simp only [if_neg hjj]
          exact (hcur j').2
    · by_cases hlt : best.k < (if j = 0 then 1 else prev (j - 1) + 1)
      · rw [if_pos hlt]
        unfold InRanges at hbest ⊢
        dsimp only
        omega
      · rw [if_neg hlt]
        exact hbest

lemma rowsFold_bounds {a b : List Char} {alo ahi blo bhi : Nat} :
    ∀ (m r : Nat) (prev : Nat → Nat) (best : Best),
      alo ≤ r → r + m ≤ ahi →
      RowBound alo blo r prev →
      InRanges alo ahi blo bhi best →
      InRanges alo ahi blo bhi (rowsFold a b blo bhi (List.range' r m) prev best) := by
  intro m
  induction m with
  | zero =>
    intro r prev best _ _ _ hbest
    exact hbest
  | succ m ih =>
    intro r prev best hr1 hr2 hprev hbest
    have hstep : rowsFold a b blo bhi (List.range' r (m + 1)) prev best
        = rowsFold a b blo bhi (List.range' (r + 1) m)
            (innerFold r prev (seedCols a b blo bhi r) (fun _ => 0) best).1
            (innerFold r prev (seedCols a b blo bhi r) (fun _ => 0) best).2 := rfl
    rw [hstep]
    have hrow := @innerFold_bounds a b alo ahi blo bhi r
      hr1 (by omega) (seedCols a b blo bhi r) prev (fun _ => 0) best
      (fun j hj => mem_seedCols hj)
      hprev
      (by
        intro j'
        dsimp only
        omega)
      hbest
    exact ih (r + 1) _ _ (by omega) (by omega) hrow.2 hrow.1

lemma seedBest_bounds {a b : List Char} {alo ahi blo bhi : Nat}
    (h1 : alo ≤ ahi) (h2 : blo ≤ bhi) :
    InRanges alo ahi blo bhi (seedBest a b alo ahi blo bhi) := by
  unfold seedBest
  apply rowsFold_bounds (ahi - alo) alo _ _ (le_refl _) (by omega)
  · intro j'
    dsimp only
    omega
  · unfold InRanges
    dsimp only
    omega

lemma extLeft_bounds {a b : List Char} {alo ahi blo bhi : Nat} :
    ∀ (f : Nat) (best : Best), InRanges alo ahi blo bhi best →
      InRanges alo ahi blo bhi (extLeft a b alo blo f best) := by
  intro f
  induction f with
  | zero => intro best h; exact h
  | succ f ih =>
    intro best h
    unfold extLeft
    split
    · rename_i hcond
      apply ih
      unfold InRanges at h ⊢
      dsimp only
      omega
    · exact h

lemma extRight_bounds {a b : List Char} {alo ahi blo bhi : Nat} :
    ∀ (f : Nat) (best : Best), InRanges alo ahi blo bhi best →
      InRanges alo ahi blo bhi (extRight a b ahi bhi f best) := by
  intro f
  induction f with
  | zero => intro best h; exact h
  | succ f ih =>
    intro best h
    unfold extRight
    split
    · rename_i hcond
      apply ih
      unfold InRanges at h ⊢
      dsimp only
      omega
    · exact h

lemma flm_bounds {a b : List Char} {alo ahi blo bhi : Nat}
    (h1 : alo ≤ ahi) (h2 : blo ≤ bhi) :
    InRanges alo ahi blo bhi (findLongestMatch a b alo ahi blo bhi) := by
  unfold findLongestMatch
  exact extRight_bounds _ _ (extLeft_bounds _ _ (seedBest_bounds h1 h2))

lemma mtF_le {a b : List Char} :
    ∀ (f alo ahi blo bhi : Nat),
      mtF a b f alo ahi blo bhi ≤ min (ahi - alo) (bhi - blo) := by
  intro f
  induction f with
  | zero =>
    intro alo ahi blo bhi
    simp [mtF]
  | succ f ih =>
    intro alo ahi blo bhi
    unfold mtF
    split
    · omega
    · rename_i hne
      push_neg at hne
      dsimp only
      have hb := @flm_bounds a b alo ahi blo bhi (by omega) (by omega)
      unfold InRanges at hb
      split
      · omega
      · have hl := ih alo (findLongestMatch a b alo ahi blo bhi).bi blo
          (findLongestMatch a b alo ahi blo bhi).bj
        have hr := ih ((findLongestMatch a b alo ahi blo bhi).bi
            + (findLongestMatch a b alo ahi blo bhi).k) ahi
          ((findLongestMatch a b alo ahi blo bhi).bj
            + (findLongestMatch a b alo ahi blo bhi).k) bhi
        omega

lemma matchesTotal_le (a b : List Char) :
    matchesTotal a b ≤ a.length ∧ matchesTotal a b ≤ b.length := by
  have h := @mtF_le a b (a.length + b.length + 1) 0 a.length 0 b.length
  unfold matchesTotal
  omega

lemma seqSimilarity_nonneg (a b : List Char) : 0 ≤ seqSimilarity a b := by
  unfold seqSimilarity
  split
  · norm_num
  · positivity

lemma seqSimilarity_le_one (a b : List Char) : seqSimilarity a b ≤ 1 := by
  unfold seqSimilarity
  split
  · norm_num
  · rename_i hT
    have hpos : (0 : ℚ) < (a.length : ℚ) + b.length := by
      have := Nat.pos_of_ne_zero hT
      exact_mod_cast this
    rw [div_le_one hpos]
    have hM := matchesTotal_le a b
    have h2 : 2 * matchesTotal a b ≤ a.length + b.length := by omega
    exact_mod_cast h2

lemma calcSimilarity_nonneg (t1 t2 : List Char) : 0 ≤ calcSimilarity t1 t2 :=
  seqSimilarity_nonneg _ _

lemma calcSimilarity_le_one (t1 t2 : List Char) : calcSimilarity t1 t2 ≤ 1 :=
  seqSimilarity_le_one _ _

lemma mem_searchBatchMatches {sents : List (List Char)} {f : Nat → List SearchResult}
    {m : DMatch} (h : m ∈ searchBatchMatches sents f) :
    similarityThreshold ≤ m.similarity
    ∧ (∃ s r, m.similarity = calcSimilarity s r)
    ∧ m.matchType = classifyMatch m.similarity := by
  unfold searchBatchMatches at h
  rw [List.mem_flatMap] at h
  obtain ⟨i, _, hm⟩ := h
  unfold sentenceMatches at hm
  rw [List.mem_filterMap] at hm
  obtain ⟨r, _, hmk⟩ := hm
  dsimp only at hmk
  split at hmk
  · rename_i hge
    rw [Option.some_inj] at hmk
    subst hmk
    exact ⟨hge, ⟨_, _, rfl⟩, rfl⟩
  · exact absurd hmk (by simp)

lemma classifyMatch_cases {s : ℚ} (h : similarityThreshold ≤ s) :
    classifyMatch s ≠ "semantic"
    ∧ (classifyMatch s = "exact" ∨ classifyMatch s = "near_exact"
        ∨ classifyMatch s = "paraphrased") := by
  unfold similarityThreshold at h
  unfold classifyMatch
  split_ifs with h1 h2 h3
  · exact ⟨by decide, Or.inl rfl⟩
  · exact ⟨by decide, Or.inr (Or.inl rfl)⟩
  · exact ⟨by decide, Or.inr (Or.inr rfl)⟩

/-! ## difflib: the seed scan on identical ranges stays on the diagonal -/

lemma seed_diag (a : List Char) (lo hi : Nat) {i j : Nat}
    (h : lo ≤ i ∧ i < hi ∧ lo ≤ j ∧ j < hi ∧ a.getD j ' ' = a.getD i ' '
        ∧ ¬ isPopular a (a.getD i ' ')) :
    (lo ≤ i ∧ i < hi ∧ lo ≤ i ∧ i < hi ∧ a.getD i ' ' = a.getD i ' '
        ∧ ¬ isPopular a (a.getD i ' '))
    ∧ (lo ≤ j ∧ j < hi ∧ lo ≤ j ∧ j < hi ∧ a.getD j ' ' = a.getD j ' '
        ∧ ¬ isPopular a (a.getD j ' ')) := by
  obtain ⟨h1, h2, h3, h4, h5, h6⟩ := h
  refine ⟨⟨h1, h2, h1, h2, rfl, h6⟩, ⟨h3, h4, h3, h4, rfl, ?_⟩⟩
  rw [h5]
  exact h6

lemma chainLen_eq_zero (a : List Char) (lo hi : Nat) {i j : Nat}
    (h : ¬ (lo ≤ i ∧ i < hi ∧ lo ≤ j ∧ j < hi ∧ a.getD j ' ' = a.getD i ' '
        ∧ ¬ isPopular a (a.getD i ' '))) :
    chainLen a a lo hi lo hi i j = 0 := by
  rcases i with _ | i' <;> rcases j with _ | j' <;> unfold chainLen <;> rw [if_neg h]

lemma chainLen_row_lt (a : List Char) (lo hi : Nat) {i j : Nat} (h : i < lo) :
    chainLen a a lo hi lo hi i j = 0 :=
  chainLen_eq_zero a lo hi (fun hc => absurd hc.1 (by omega))

lemma chainLen_step (a : List Char) (lo hi : Nat) {i j : Nat}
    (h : lo ≤ i ∧ i < hi ∧ lo ≤ j ∧ j < hi ∧ a.getD j ' ' = a.getD i ' '
        ∧ ¬ isPopular a (a.getD i ' ')) :
    chainLen a a lo hi lo hi i j = (if j = 0 then 1 else prevRow a lo hi i (j - 1) + 1) := by
  rcases i with _ | i' <;> rcases j with _ | j' <;>
    unfold chainLen prevRow <;> rw [if_pos h] <;> simp

lemma chainLen_le_diag_row (a : List Char) (lo hi : Nat) :
    ∀ i j, chainLen a a lo hi lo hi i j ≤ chainLen a a lo hi lo hi i i := by
  intro i
  induction i with
  | zero =>
    intro j
    rcases j with _ | j'
    · exact le_refl _
    · unfold chainLen
      split
      · rename_i hc
        rw [if_pos (seed_diag a lo hi hc).1]
      · exact Nat.zero_le _
  | succ i' ih =>
    intro j
    rcases j with _ | j'
    · unfold chainLen
      split
      · rename_i hc
        rw [if_pos (seed_diag a lo hi hc).1]
        omega
      · exact Nat.zero_le _
    · unfold chainLen
      split
      · rename_i hc
        rw [if_pos (seed_diag a lo hi hc).1]
        have := ih j'
        omega
      · exact Nat.zero_le _

lemma chainLen_le_diag_col (a : List Char) (lo hi : Nat) :
    ∀ j i, chainLen a a lo hi lo hi i j ≤ chainLen a a lo hi lo hi j j := by
  intro j
  induction j with
  | zero =>
    intro i
    rcases i with _ | i'
    · exact le_refl _
    · unfold chainLen
      split
      · rename_i hc
        rw [if_pos (seed_diag a lo hi hc).2]
      · exact Nat.zero_le _
  | succ j' ih =>
    intro i
    rcases i with _ | i'
    · unfold chainLen
      split
      · rename_i hc
        rw [if_pos (seed_diag a lo hi hc).2]
        omega
      · exact Nat.zero_le _
    · unfold chainLen
      split
      · rename_i hc
        rw [if_pos (seed_diag a lo hi hc).2]
        have := ih i'
        omega
      · exact Nat.zero_le _

lemma mem_seedCols_iff {a b : List Char} {blo bhi i j : Nat} :
    j ∈ seedCols a b blo bhi i ↔
      (blo ≤ j ∧ j < bhi ∧ b.getD j ' ' = a.getD i ' '
        ∧ ¬ isPopular b (a.getD i ' ')) := by
  unfold seedCols
  by_cases hpop : isPopular b (a.getD i ' ') = true
  · rw [if_pos hpop]
    simp only [List.not_mem_nil, false_iff]
    rintro ⟨_, _, _, hne⟩
    exact hne hpop
  · rw [if_neg hpop]
    rw [List.mem_filter, List.mem_range]
    simp only [Bool.and_eq_true, decide_eq_true_eq]
    constructor
    · rintro ⟨h1, h2, h3⟩
      exact ⟨h2, h1, h3, hpop⟩
    · rintro ⟨h1, h2, h3, _⟩
      exact ⟨h2, h1, h3⟩

lemma seedCols_sorted (a b : List Char) (blo bhi i : Nat) :
    (seedCols a b blo bhi i).Pairwise (· < ·) := by
  unfold seedCols
  split
  · simp
  · exact List.Pairwise.sublist (List.filter_sublist _) (List.pairwise_lt_range _)

lemma innerFold_diag (a : List Char) (lo hi : Nat) {i : Nat}
    (hi1 : lo ≤ i) (hi2 : i < hi) :
    ∀ (js : List Nat) (prev cur : Nat → Nat) (best : Best),
      (∀ x ∈ js, x ∈ seedCols a a lo hi i) →
      js.Pairwise (· < ·) →
      (∀ j', prev j' = prevRow a lo hi i j') →
      (∀ j', j' ∉ js → cur j' = chainLen a a lo hi lo hi i j') →
      best.bi = best.bj →
      (∀ i' j', i' < i → chainLen a a lo hi lo hi i' j' ≤ best.k) →
      (∀ j', j' ∉ js → chainLen a a lo hi lo hi i j' ≤ best.k) →
      ((∀ j', (innerFold i prev js cur best).1 j' = chainLen a a lo hi lo hi i j')
        ∧ (innerFold i prev js cur best).2.bi = (innerFold i prev js cur best).2.bj
        ∧ (∀ i' j', i' ≤ i →
            chainLen a a lo hi lo hi i' j' ≤ (innerFold i prev js cur best).2.k)) := by
  intro js
  induction js with
  | nil =>
    intro prev cur best _ _ _ hcur hdiag hprevmax hrowmax
    refine ⟨fun j' => hcur j' (List.not_mem_nil j'), hdiag, ?_⟩
    intro i' j' hle
    rcases Nat.lt_or_ge i' i with h | h
    · exact hprevmax i' j' h
    · have hii : i' = i := by omega
      subst hii
      exact hrowmax j' (List.not_mem_nil j')
  | cons j js ih =>
    intro prev cur best hsub hsort hprev hcur hdiag hprevmax hrowmax
    have hjmem : j ∈ seedCols a a lo hi i := hsub j (List.mem_cons_self _ _)
    have hjc := mem_seedCols_iff.mp hjmem
    have hseedfull : lo ≤ i ∧ i < hi ∧ lo ≤ j ∧ j < hi ∧ a.getD j ' ' = a.getD i ' '
        ∧ ¬ isPopular a (a.getD i ' ') :=
      ⟨hi1, hi2, hjc.1, hjc.2.1, hjc.2.2.1, hjc.2.2.2⟩
    have hkval : (if j = 0 then 1 else prev (j - 1) + 1)
        = chainLen a a lo hi lo hi i j := by
      rw [chainLen_step a lo hi hseedfull]
      split
      · rfl
      · rw [hprev (j - 1)]
    have hstep : innerFold i prev (j :: js) cur best
        = innerFold i prev js
            (fun j' => if j' = j then (if j = 0 then 1 else prev (j - 1) + 1) else cur j')
            (if best.k < (if j = 0 then 1 else prev (j - 1) + 1) then
              ⟨i + 1 - (if j = 0 then 1 else prev (j - 1) + 1),
               j + 1 - (if j = 0 then 1 else prev (j - 1) + 1),
               (if j = 0 then 1 else prev (j - 1) + 1)⟩ else best) := rfl
    rw [hstep]
    have hsub' : ∀ x ∈ js, x ∈ seedCols a a lo hi i :=
      fun x hx => hsub x (List.mem_cons_of_mem _ hx)
    have hsort' := (List.pairwise_cons.mp hsort).2
    have hjlt := (List.pairwise_cons.mp hsort).1
    have hcur' : ∀ j', j' ∉ js →
        (fun j'' => if j'' = j then (if j = 0 then 1 else prev (j - 1) + 1) else cur j'') j'
          = chainLen a a lo hi lo hi i j' := by
      intro j' hj'
      dsimp only
      by_cases he : j' = j
      · rw [if_pos he, he, hkval]
      · rw [if_neg he]
        exact hcur j' (fun hmem => (List.mem_cons.mp hmem).elim he hj')
    by_cases hlt : best.k < (if j = 0 then 1 else prev (j - 1) + 1)
    · rw [if_pos hlt]
      rw [hkval] at hlt
      have hij : i = j := by
        rcases Nat.lt_trichotomy j i with hj | hj | hj
        · exfalso
          have h1 : chainLen a a lo hi lo hi i j ≤ chainLen a a lo hi lo hi j j :=
            chainLen_le_diag_col a lo hi j i
          have h2 : chainLen a a lo hi lo hi j j ≤ best.k := hprevmax j j hj
          omega
        · exact hj.symm
        · exfalso
          have h1 : chainLen a a lo hi lo hi i j ≤ chainLen a a lo hi lo hi i i :=
            chainLen_le_diag_row a lo hi i j
          have hnotmem : i ∉ (j :: js) := by
            intro hmem
            rcases List.mem_cons.mp hmem with he | he
            · omega
            · have := hjlt i he
              omega
          have h2 : chainLen a a lo hi lo hi i i ≤ best.k := hrowmax i hnotmem
          omega
      apply ih _ _ _ hsub' hsort' hprev hcur'
      · dsimp only
        rw [hij]
      · intro i' j' hlt'
        dsimp only
        rw [hkval]
        have := hprevmax i' j' hlt'
        omega
      · intro j' hj'
        dsimp only
        rw [hkval]
        by_cases he : j' = j
        · rw [he]
        · have := hrowmax j' (fun hmem => (List.mem_cons.mp hmem).elim he hj')
          omega
    · rw [if_neg hlt]
      rw [hkval] at hlt
      apply ih _ _ _ hsub' hsort' hprev hcur' hdiag hprevmax
      intro j' hj'
      by_cases he : j' = j
      · rw [he]
        omega
      · exact hrowmax j' (fun hmem => (List.mem_cons.mp hmem).elim he hj')

lemma rowsFold_diag (a : List Char) (lo hi : Nat) :
    ∀ (m r : Nat) (prev : Nat → Nat) (best : Best),
      lo ≤ r → r + m ≤ hi →
      (∀ j', prev j' = prevRow a lo hi r j') →
      best.bi = best.bj →
      (∀ i' j', i' < r → chainLen a a lo hi lo hi i' j' ≤ best.k) →
      ((rowsFold a a lo hi (List.range' r m) prev best).bi
          = (rowsFold a a lo hi (List.range' r m) prev best).bj
        ∧ (∀ i' j', i' < r + m →
            chainLen a a lo hi lo hi i' j'
              ≤ (rowsFold a a lo hi (List.range' r m) prev best).k)) := by
  intro m
  induction m with
  | zero =>
    intro r prev best _ _ _ hdiag hmax
    exact ⟨hdiag, fun i' j' h => hmax i' j' (by omega)⟩
  | succ m ih =>
    intro r prev best hr1 hr2 hprev hdiag hmax
    have hstep : rowsFold a a lo hi (List.range' r (m + 1)) prev best
        = rowsFold a a lo hi (List.range' (r + 1) m)
            (innerFold r prev (seedCols a a lo hi r) (fun _ => 0) best).1
            (innerFold r prev (seedCols a a lo hi r) (fun _ => 0) best).2 := rfl
    rw [hstep]
    have hzero : ∀ j', j' ∉ seedCols a a lo hi r →
        chainLen a a lo hi lo hi r j' = 0 := by
      intro j' hj'
      apply chainLen_eq_zero
      intro hc
      exact hj' (mem_seedCols_iff.mpr ⟨hc.2.2.1, hc.2.2.2.1, hc.2.2.2.2.1, hc.2.2.2.2.2⟩)
    have hrow := innerFold_diag a lo hi (i := r) hr1 (by omega)
      (seedCols a a lo hi r) prev (fun _ => 0) best
      (fun x hx => hx) (seedCols_sorted a a lo hi r) hprev
      (fun j' hj' => (hzero j' hj').symm)
      hdiag hmax
      (fun j' hj' => by
        rw [hzero j' hj']
        exact Nat.zero_le _)
    have hnext := ih (r + 1)
      (innerFold r prev (seedCols a a lo hi r) (fun _ => 0) best).1
      (innerFold r prev (seedCols a a lo hi r) (fun _ => 0) best).2
      (by omega) (by omega)
      (fun j' => by
        rw [hrow.1 j']
        unfold prevRow
        rw [if_neg (Nat.succ_ne_zero r)]
        simp)
      hrow.2.1
      (fun i' j' h => hrow.2.2 i' j' (by omega))
    exact ⟨hnext.1, fun i' j' h => hnext.2 i' j' (by omega)⟩

lemma seedBest_diag (a : List Char) (lo hi : Nat) (h : lo ≤ hi) :
    (seedBest a a lo hi lo hi).bi = (seedBest a a lo hi lo hi).bj := by
  unfold seedBest
  have hres := rowsFold_diag a lo hi (hi - lo) lo (fun _ => 0) ⟨lo, lo, 0⟩
    (le_refl _) (by omega)
    (fun j' => by
      unfold prevRow
      by_cases hz : lo = 0
      · rw [if_pos hz]
      · rw [if_neg hz]
        exact (chainLen_row_lt a lo hi (by omega)).symm)
    rfl
    (fun i' j' hlt => by
      rw [chainLen_row_lt a lo hi hlt])
  exact hres.1

lemma extLeft_eval (a : List Char) (lo : Nat) :
    ∀ (f m k : Nat), lo ≤ m → m - lo ≤ f →
      extLeft a a lo lo f ⟨m, m, k⟩ = ⟨lo, lo, k + (m - lo)⟩ := by
  intro f
  induction f with
  | zero =>
    intro m k h1 h2
    have hm : m = lo := by omega
    subst hm
    simp [extLeft]
  | succ f ih =>
    intro m k h1 h2
    by_cases hlt : lo < m
    · unfold extLeft
      rw [if_pos ⟨hlt, hlt, rfl⟩]
      dsimp only
      rw [ih (m - 1) (k + 1) (by omega) (by omega)]
      congr 1
      omega
    · have hm : m = lo := by omega
      subst hm
      unfold extLeft
      rw [if_neg (by
        intro hc
        have hcc := hc.1
        dsimp only at hcc
        omega)]
      simp

lemma extRight_eval (a : List Char) (hi : Nat) :
    ∀ (f m k : Nat), m + k ≤ hi → hi - (m + k) ≤ f →
      extRight a a hi hi f ⟨m, m, k⟩ = ⟨m, m, k + (hi - (m + k))⟩ := by
  intro f
  induction f with
  | zero =>
    intro m k h1 h2
    have hk : hi - (m + k) = 0 := by omega
    rw [hk]
    rfl
  | succ f ih =>
    intro m k h1 h2
    by_cases hlt : m + k < hi
    · unfold extRight
      rw [if_pos ⟨hlt, hlt, rfl⟩]
      dsimp only
      rw [ih m (k + 1) (by omega) (by omega)]
      congr 1
      omega
    · unfold extRight
      rw [if_neg (by
        intro hc
        have hcc := hc.1
        dsimp only at hcc
        omega)]
      have hk : hi - (m + k) = 0 := by omega
      rw [hk]
      simp

lemma flm_refl (a : List Char) (lo hi : Nat) (h : lo ≤ hi) :
    findLongestMatch a a lo hi lo hi = ⟨lo, lo, hi - lo⟩ := by
  unfold findLongestMatch
  have hb := @seedBest_bounds a a lo hi lo hi h h
  have hd := seedBest_diag a lo hi h
  rcases hsval : seedBest a a lo hi lo hi with ⟨bi, bj, k⟩
  rw [hsval] at hb hd
  unfold InRanges at hb
  dsimp only at hb hd ⊢
  subst hd
  rw [extLeft_eval a lo bi bi k hb.1 (by omega)]
  rw [extRight_eval a hi hi lo (k + (bi - lo)) (by omega) (by omega)]
  congr 1
  omega

lemma mtF_empty (a b : List Char) {alo ahi blo bhi : Nat}
    (h : ahi ≤ alo ∨ bhi ≤ blo) :
    ∀ f, mtF a b f alo ahi blo bhi = 0 := by
  intro f
  cases f with
  | zero => rfl
  | succ f =>
    unfold mtF
    rw [if_pos h]

lemma matchesTotal_self (a : List Char) : matchesTotal a a = a.length := by
  unfold matchesTotal
  rcases Nat.eq_zero_or_pos a.length with hz | hp
  · rw [hz]
    rw [mtF_empty a a (Or.inl (le_refl 0))]
  · rw [mtF]
    rw [if_neg (by omega)]
    dsimp only
    rw [flm_refl a 0 a.length (Nat.zero_le _)]
    dsimp only
    rw [if_neg (by omega)]
    rw [mtF_empty a a (Or.inl (le_refl 0))]
    rw [mtF_empty a a (Or.inl (by omega))]
    omega

lemma seqSimilarity_self (a : List Char) : seqSimilarity a a = 1 := by
  unfold seqSimilarity
  split
  · rfl
  · rename_i hT
    rw [matchesTotal_self]
    have hne : ((a.length : ℚ) + a.length) ≠ 0 := by
      have hz : a.length ≠ 0 := by omega
      have : ((a.length + a.length : Nat) : ℚ) ≠ 0 := by
        exact_mod_cast (by omega : a.length + a.length ≠ 0)
      push_cast at this
      exact this
    rw [div_eq_one_iff_eq hne]
    ring

lemma calcSimilarity_self (t : List Char) : calcSimilarity t t = 1 :=
  seqSimilarity_self _

lemma seqSimilarity_empty (a : List Char) (h : a ≠ []) : seqSimilarity a [] = 0 := by
  unfold seqSimilarity
  have hlen : a.length ≠ 0 := fun hz => h (List.length_eq_zero.mp hz)
  rw [if_neg (by simpa using hlen)]
  have hmt : matchesTotal a [] = 0 := by
    unfold matchesTotal
    rw [mtF_empty a [] (Or.inr (by simp))]
  rw [hmt]
  simp

/-- Claim C1: the claim states that every analysis computes overall
similarity as covered character offsets over document length.  The
PlagiarismAnalyzer does, but PlagiarismDetector._calculate_overall_similarity
returns the fraction of sentences carrying a match: on a two-sentence
document of 51 characters whose first 19-character sentence is fully
matched, the detector reports 1/2 while the coverage policy gives 19/51. -/
theorem C1_counterexample :
    ("a a a a a a a a a a. bb bb bb bb bb bb bb bb bb bb.".toList).length = 51
    ∧ (detectorAnalyze "a a a a a a a a a a. bb bb bb bb bb bb bb bb bb bb.".toList
        (fun i => if i = 0 then [⟨"t", "u", "a a a a a a a a a a"⟩] else [])).matchList.map
          (fun m => (m.sentenceIndex, m.matchType)) = [(0, "exact")]
    ∧ (detectorAnalyze "a a a a a a a a a a. bb bb bb bb bb bb bb bb bb bb.".toList
        (fun i => if i = 0 then [⟨"t", "u", "a a a a a a a a a a"⟩] else [])).overallSimilarity
        = 1/2
    ∧ specCoverageSimilarity 51 [(0, 19)] = 19/51
    ∧ ((1 : ℚ)/2 ≠ 19/51) := by
  refine ⟨by decide, by decide, by decide, by decide, by decide⟩

/-- Claim C1 amended: the PlagiarismAnalyzer's overall similarity is the
coverage policy (distinct covered offsets over document length, clamped,
0 with no matches), while the PlagiarismDetector's overall similarity is
the fraction of distinct matched sentence indices over the analyzed
sentences, capped at 1. -/
theorem C1_amended_policies :
    (∀ (text : List Char) (ms : List AMatch), ms ≠ [] →
        (∀ x ∈ ms, x.endIndex ≤ text.length) →
        analyzerOverallSimilarity text ms = ((coveredOffsets ms).card : ℚ) / text.length)
    ∧ (∀ text : List Char, analyzerOverallSimilarity text [] = 0)
    ∧ (∀ (text : List Char) (ms : List AMatch),
        analyzerOverallSimilarity text ms
          = specCoverageSimilarity text.length (ms.map fun m => (m.startIndex, m.endIndex)))
    ∧ (∀ (sents : List (List Char)) (ms : List DMatch),
        detectorOverallSimilarity sents ms
          = specSentenceFraction sents.length (ms.map DMatch.sentenceIndex)) :=
  ⟨analyzerOS_eq_coverage, analyzerOS_empty, analyzerOS_eq_spec, detectorOS_eq_spec⟩

/-- Claim C1 witness: the coverage formula instantiated on a concrete
document and match list. -/
theorem C1_amended_witness :
    analyzerOverallSimilarity "abcde".toList
        [⟨"abc".toList, "p", 95, 0, 3, "s", "exact", 95/100⟩]
      = ((coveredOffsets [⟨"abc".toList, "p", 95, 0, 3, "s", "exact", 95/100⟩]).card : ℚ)
          / ("abcde".toList).length :=
  C1_amended_policies.1 _ _ (by decide) (by decide)

/-- Claim C2: the claim's thresholds (Low below 0.10, Medium up to 0.40,
High from 0.40) match neither risk table in the code: at similarity 0.3 the
claim expects Medium, but the analyzer says Low (its cutoffs are 0.4/0.8)
and the endpoint simulation says High (its cutoffs are 0.10/0.25). -/
theorem C2_counterexample :
    determineRiskLevel (3/10) = "Low" ∧ simulateRiskLevel (3/10) = "High"
    ∧ determineRiskLevel (3/10) ≠ "Medium" ∧ simulateRiskLevel (3/10) ≠ "Medium" := by
  refine ⟨by decide, by decide, by decide, by decide⟩

/-- Claim C2 amended: the analyzer maps s < 0.4 to Low, 0.4 ≤ s < 0.8 to
Medium and s ≥ 0.8 to High; the endpoint simulation maps s < 0.10 to Low,
0.10 ≤ s < 0.25 to Medium and s ≥ 0.25 to High; both are total and every
value is assigned exactly one of the three tiers. -/
theorem C2_amended_thresholds : ∀ s : ℚ,
    ((s < 2/5 → determineRiskLevel s = "Low")
      ∧ (2/5 ≤ s → s < 4/5 → determineRiskLevel s = "Medium")
      ∧ (4/5 ≤ s → determineRiskLevel s = "High")
      ∧ (determineRiskLevel s = "Low" ∨ determineRiskLevel s = "Medium"
          ∨ determineRiskLevel s = "High"))
    ∧ ((s < 1/10 → simulateRiskLevel s = "Low")
      ∧ (1/10 ≤ s → s < 1/4 → simulateRiskLevel s = "Medium")
      ∧ (1/4 ≤ s → simulateRiskLevel s = "High")
      ∧ (simulateRiskLevel s = "Low" ∨ simulateRiskLevel s = "Medium"
          ∨ simulateRiskLevel s = "High")) := by
  intro s
  constructor
  · unfold determineRiskLevel
    split_ifs with h1 h2
    · exact ⟨fun h => absurd h (by linarith), fun _ h => absurd h (by linarith),
        fun _ => rfl, Or.inr (Or.inr rfl)⟩
    · exact ⟨fun h => absurd h (by linarith), fun _ _ => rfl,
        fun h => absurd h (by linarith), Or.inr (Or.inl rfl)⟩
    · exact ⟨fun _ => rfl, fun h _ => absurd h (by linarith),
        fun h => absurd h (by linarith), Or.inl rfl⟩
  · unfold simulateRiskLevel
    split_ifs with h1 h2
    · exact ⟨fun _ => rfl, fun h _ => absurd h (by linarith),
        fun h => absurd h (by linarith), Or.inl rfl⟩
    · exact ⟨fun h => absurd h (by linarith), fun _ _ => rfl,
        fun h => absurd h (by linarith), Or.inr (Or.inl rfl)⟩
    · exact ⟨fun h => absurd h (by linarith), fun _ h => absurd h (by linarith),
        fun _ => rfl, Or.inr (Or.inr rfl)⟩

/-- Claim C2 witness: the amended tables applied at s = 1/2. -/
theorem C2_amended_witness :
    determineRiskLevel (1/2) = "Medium" ∧ simulateRiskLevel (1/2) = "High" :=
  ⟨(C2_amended_thresholds (1/2)).1.2.1 (by norm_num) (by norm_num),
   (C2_amended_thresholds (1/2)).2.2.2.1 (by norm_num)⟩

/-- Claim C5: neither cited site fails with a ValidationError on a
document with no analyzable segment.  On "Too short." (2 words, below the
10-word minimum, so segmentation yields nothing) the detector returns the
completed empty result with no error field, and main.analyze_document —
whose guard tests stripped characters (10 here), not segments — passes it
through to a completed simulate result rather than raising. -/
theorem C5_counterexample :
    validSentences "Too short.".toList = []
    ∧ detectorAnalyze "Too short.".toList (fun _ => []) = emptyDetectorResult
    ∧ (detectorAnalyze "Too short.".toList (fun _ => [])).errorMsg = none
    ∧ (wordsOf "Too short.".toList).length = 2
    ∧ (stripChars "Too short.".toList).length = 10
    ∧ simulatePlagiarismCheck "Too short.".toList = ⟨0, "Low", [], 2, 10⟩
    ∧ mainAnalyzeDocument "Too short.".toList = Except.ok ⟨0, "Low", [], 2, 10⟩ := by
  refine ⟨by decide, by decide, by decide, by decide, by decide, by decide, ?_⟩
  rfl

/-- Claim C5 amended: when no sentence reaches the 10-word minimum the
detector analysis returns the empty AnalysisResult rather than failing,
and the detector never surfaces an error for any segmentation outcome;
main.analyze_document raises its ValueError exactly when the extracted
text strips to fewer than 10 characters — a character test, not a
segmentation test — and otherwise returns the completed simulated result. -/
theorem C5_amended_empty_result :
    (∀ (text : List Char) (f : Nat → List SearchResult),
        validSentences text = [] → detectorAnalyze text f = emptyDetectorResult)
    ∧ (∀ (text : List Char) (f : Nat → List SearchResult),
        (detectorAnalyze text f).errorMsg = none)
    ∧ (∀ text : List Char,
        (∃ e, mainAnalyzeDocument text = Except.error e)
          ↔ (stripChars text).length < 10)
    ∧ (∀ text : List Char, ¬ (stripChars text).length < 10 →
        mainAnalyzeDocument text = Except.ok (simulatePlagiarismCheck text)) := by
  refine ⟨?_, ?_, ?_, ?_⟩
  · intro text f h
    unfold detectorAnalyze
    rw [if_pos h]
  · intro text f
    unfold detectorAnalyze
    dsimp only
    by_cases h : validSentences text = []
    · rw [if_pos h]; rfl
    · rw [if_neg h]
  · intro text
    unfold mainAnalyzeDocument
    by_cases h : text = [] ∨ (stripChars text).length < 10
    · rw [if_pos h]
      constructor
      · intro _
        rcases h with h | h
        · rw [h]
          unfold stripChars
          simp
        · exact h
      · intro _
        exact ⟨_, rfl⟩
    · rw [if_neg h]
      push_neg at h
      constructor
      · rintro ⟨e, he⟩
        exact absurd he (by simp)
      · intro hlt
        omega
  · intro text hge
    unfold mainAnalyzeDocument
    rw [if_neg ?_]
    intro hc
    rcases hc with hc | hc
    · apply hge
      rw [hc]
      unfold stripChars
      simp
    · exact hge hc

/-- Claim C5 witness: the amended statement exercised at concrete
documents on both sites. -/
theorem C5_amended_witness :
    detectorAnalyze "Too short.".toList (fun _ => []) = emptyDetectorResult
    ∧ mainAnalyzeDocument "Hello world, this is fine.".toList
        = Except.ok (simulatePlagiarismCheck "Hello world, this is fine.".toList) :=
  ⟨C5_amended_empty_result.1 _ _ (by decide),
   C5_amended_empty_result.2.2.2 _ (by decide)⟩

/-- Claim C6: _deduplicate_matches keeps the first match of a duplicated
(startIndex, endIndex, originalText) key, not the highest-similarity one,
and the stable sort breaks similarity ties by list order, not by ascending
startOffset: on "however in conclusion" the two similarity-70 matches come
out with startOffsets 8 then 0. -/
theorem C6_counterexample :
    deduplicateMatches
        [⟨"abcde".toList, "p", 85, 0, 5, "s1", "paraphrased", 85/100⟩,
         ⟨"abcde".toList, "p", 95, 0, 5, "s2", "exact", 95/100⟩]
      = [⟨"abcde".toList, "p", 85, 0, 5, "s1", "paraphrased", 85/100⟩]
    ∧ (analyzerAnalyzeMatches "however in conclusion".toList).map
        (fun m => (m.similarity, m.startIndex))
      = [(70, 8), (70, 0)] := by
  refine ⟨by decide, by decide⟩

/-- Claim C6 amended: the final match list carries at most one match per
(startIndex, endIndex, originalText) key — the first one in scan order —
and is sorted by non-increasing similarity (stable, so ties keep scan
order rather than ascending startOffset). -/
theorem C6_amended_resolver :
    (∀ ms : List AMatch,
        (deduplicateMatches ms).Pairwise (fun x y => dedupKey x ≠ dedupKey y))
    ∧ (∀ ms : List AMatch,
        (sortBySimDesc ms).Sorted (fun x y => y.similarity ≤ x.similarity))
    ∧ (∀ clean : List Char,
        (analyzerFindMatches clean).Pairwise (fun x y => dedupKey x ≠ dedupKey y)
        ∧ (analyzerFindMatches clean).Sorted (fun x y => y.similarity ≤ x.similarity)) := by
  refine ⟨fun ms => dedupGo_pairwise ms [], fun ms => sortBySimDesc_sorted ms, fun clean => ⟨?_, sortBySimDesc_sorted _⟩⟩
  have hp := sortBySimDesc_perm (deduplicateMatches (corpusMatches clean ++ partialMatches clean))
  exact (hp.pairwise_iff (fun h => Ne.symm h)).mpr (dedupGo_pairwise _ [])

/-- Claim C8: the static-corpus matcher's offsets index the cleaned
(whitespace-collapsed, lowercased) text, not the original document: on a
document with leading blanks and capitals, slicing the original at the
reported range does not reproduce the reported matched span. -/
theorem C8_counterexample :
    (analyzerAnalyzeMatches "  Machine learning algorithms".toList).map
        (fun m => (m.startIndex, m.endIndex, m.originalText))
      = [(0, 27, "machine learning algorithms".toList)]
    ∧ slice "  Machine learning algorithms".toList 0 27
        ≠ "machine learning algorithms".toList := by
  refine ⟨by decide, by decide⟩

/-- Claim C8 amended: every match offset is a half-open range into the
cleaned text: slicing the cleaned document at [startOffset, endOffset)
yields exactly the reported matched span, and the range length equals the
span length. -/
theorem C8_amended_offsets : ∀ (text : List Char), ∀ m ∈ analyzerAnalyzeMatches text,
    slice (cleanText text) m.startIndex m.endIndex = m.originalText
    ∧ m.endIndex = m.startIndex + m.originalText.length := by
  intro text m hm
  unfold analyzerAnalyzeMatches at hm
  rcases mem_analyzerFindMatches hm with h | h
  · have hc := mem_corpusMatches h
    exact ⟨hc.2.2.2.1, hc.2.2.2.2⟩
  · have hc := mem_partialMatches h
    exact ⟨hc.2.2.2.1, hc.2.2.2.2⟩

/-- Claim C8 witness: the amended statement at the concrete document. -/
theorem C8_amended_witness :
    slice (cleanText "  Machine learning algorithms".toList) 0 27
      = "machine learning algorithms".toList := by
  have h := C8_amended_offsets "  Machine learning algorithms".toList
    ⟨"machine learning algorithms".toList, "machine learning algorithms", 95, 0, 27,
     "src_001", "exact", 95/100⟩ (by decide)
  exact h.1

/-- Claim C9: for a fixed document the analyzer's coverage-based overall
similarity never decreases when a match is appended; it strictly increases
when the new match covers at least one previously uncovered offset, and is
unchanged exactly when the new match's range was already fully covered. -/
theorem C9_coverage_monotone :
    (∀ (text : List Char) (ms : List AMatch) (m : AMatch),
        analyzerOverallSimilarity text ms ≤ analyzerOverallSimilarity text (ms ++ [m]))
    ∧ (∀ (text : List Char) (ms : List AMatch) (m : AMatch),
        0 < text.length → (∀ x ∈ ms ++ [m], x.endIndex ≤ text.length) →
        ((¬ Finset.Ico m.startIndex m.endIndex ⊆ coveredOffsets ms →
            analyzerOverallSimilarity text ms < analyzerOverallSimilarity text (ms ++ [m]))
         ∧ (Finset.Ico m.startIndex m.endIndex ⊆ coveredOffsets ms →
            analyzerOverallSimilarity text ms = analyzerOverallSimilarity text (ms ++ [m])))) := by
  constructor
  · intro text ms m
    by_cases hne : ms = []
    · subst hne
      rw [analyzerOS_empty]
      exact analyzerOS_nonneg _ _
    · have hne2 : ms ++ [m] ≠ [] := by simp
      unfold analyzerOverallSimilarity
      rw [if_neg hne, if_neg hne2]
      dsimp only
      refine min_le_min (max_le_max ?_ (le_refl _)) (le_refl _)
      by_cases hL : 0 < text.length
      · rw [if_pos hL, if_pos hL]
        have hsub : coveredOffsets ms ⊆ coveredOffsets (ms ++ [m]) := by
          rw [coveredOffsets_append_single]
          exact Finset.subset_union_left
        rw [div_le_div_iff_of_pos_right (by exact_mod_cast hL)]
        exact_mod_cast Finset.card_le_card hsub
      · rw [if_neg hL, if_neg hL]
  · intro text ms m hL hb
    have hbm : ∀ x ∈ ms, x.endIndex ≤ text.length := fun x hx => hb x (by simp [hx])
    constructor
    · intro hnsub
      by_cases hne : ms = []
      · subst hne
        rw [analyzerOS_empty]
        rw [analyzerOS_eq_coverage text ([] ++ [m]) (by simp) hb]
        apply div_pos _ (by exact_mod_cast hL)
        have hnonempty : (coveredOffsets ([] ++ [m])).Nonempty := by
          rw [List.nil_append, coveredOffsets_cons]
          have : (Finset.Ico m.startIndex m.endIndex).Nonempty := by
            by_contra hemp
            rw [Finset.not_nonempty_iff_eq_empty] at hemp
            exact hnsub (by rw [hemp]; exact Finset.empty_subset _)
          obtain ⟨x, hx⟩ := this
          exact ⟨x, Finset.mem_union_left _ hx⟩
        exact_mod_cast Finset.card_pos.mpr hnonempty
      · rw [analyzerOS_eq_coverage text ms hne hbm,
            analyzerOS_eq_coverage text (ms ++ [m]) (by simp) hb]
        rw [div_lt_div_iff_of_pos_right (by exact_mod_cast hL)]
        have : coveredOffsets ms ⊂ coveredOffsets (ms ++ [m]) := by
          rw [coveredOffsets_append_single, Finset.ssubset_def]
          refine ⟨Finset.subset_union_left, fun hsup => ?_⟩
          exact hnsub (le_trans Finset.subset_union_right hsup)
        exact_mod_cast Finset.card_lt_card this
    · intro hsub
      by_cases hne : ms = []
      · subst hne
        have hico : Finset.Ico m.startIndex m.endIndex = ∅ := by
          refine Finset.subset_empty.mp ?_
          simpa [coveredOffsets] using hsub
        rw [analyzerOS_empty,
            analyzerOS_eq_coverage text ([] ++ [m]) (by simp) hb]
        rw [List.nil_append, coveredOffsets_cons, hico]
        simp [coveredOffsets]
      · rw [analyzerOS_eq_coverage text ms hne hbm,
            analyzerOS_eq_coverage text (ms ++ [m]) (by simp) hb,
            coveredOffsets_append_single, Finset.union_eq_left.mpr hsub]

/-- Claim C9 witness: appending a match over fresh offsets strictly
increases the overall similarity on a concrete document. -/
theorem C9_witness :
    analyzerOverallSimilarity "abcde".toList
        [⟨"ab".toList, "p", 95, 0, 2, "s", "exact", 95/100⟩]
      < analyzerOverallSimilarity "abcde".toList
        ([⟨"ab".toList, "p", 95, 0, 2, "s", "exact", 95/100⟩]
          ++ [⟨"cd".toList, "p", 95, 2, 4, "s", "exact", 95/100⟩]) :=
  (C9_coverage_monotone.2 _ _ _ (by decide) (by decide)).1 (by decide)

/-- Claim C3: the static-corpus analyzer emits matches whose similarity is
95 — far outside [0,1] — so the claim that every match of an analysis run
has similarity in [0,1] fails on that path. -/
theorem C3_counterexample :
    (analyzerAnalyzeMatches "machine learning algorithms".toList).map AMatch.similarity
      = [95]
    ∧ ¬ ((95 : ℚ) ≤ 1) := by
  refine ⟨by decide, by decide⟩

/-- Claim C3 amended: web-search matches have similarity in [0.6, 1] with
matchType derived from it through the fixed thresholds; static-corpus
matches carry similarity 95 (tagged exact) or the fixed 70 (tagged
common_phrase) on the 0-100 scale, with confidence = similarity/100. -/
theorem C3_amended_matches :
    (∀ (sents : List (List Char)) (f : Nat → List SearchResult) (m : DMatch),
        m ∈ searchBatchMatches sents f →
        similarityThreshold ≤ m.similarity ∧ 0 ≤ m.similarity ∧ m.similarity ≤ 1
        ∧ m.matchType = classifyMatch m.similarity
        ∧ (m.matchType = "exact" ∨ m.matchType = "near_exact"
            ∨ m.matchType = "paraphrased"))
    ∧ (∀ (clean : List Char) (m : AMatch), m ∈ analyzerFindMatches clean →
        ((m.similarity = 95 ∧ m.matchType = "exact")
          ∨ (m.similarity = 70 ∧ m.matchType = "common_phrase"))
        ∧ m.confidence = m.similarity / 100) := by
  constructor
  · intro sents f m hm
    obtain ⟨hθ, ⟨s, r, hsim⟩, htype⟩ := mem_searchBatchMatches hm
    refine ⟨hθ, ?_, ?_, htype, ?_⟩
    · rw [hsim]; exact calcSimilarity_nonneg _ _
    · rw [hsim]; exact calcSimilarity_le_one _ _
    · rw [htype]
      exact (classifyMatch_cases hθ).2
  · intro clean m hm
    rcases mem_analyzerFindMatches hm with h | h
    · have hc := mem_corpusMatches h
      refine ⟨Or.inl ⟨hc.1, hc.2.1⟩, ?_⟩
      rw [hc.2.2.1, hc.1]
    · have hc := mem_partialMatches h
      refine ⟨Or.inr ⟨hc.1, hc.2.1⟩, ?_⟩
      rw [hc.2.2.1, hc.1]
      norm_num

/-- Claim C3 witness: the amended statement applied to an exact web-search
match of similarity 1. -/
theorem C3_amended_witness :
    similarityThreshold ≤ (1 : ℚ) ∧ (0 : ℚ) ≤ 1 ∧ (1 : ℚ) ≤ 1
    ∧ "exact" = classifyMatch 1
    ∧ ("exact" = "exact" ∨ "exact" = "near_exact" ∨ "exact" = "paraphrased") :=
  C3_amended_matches.1 ["ab".toList] (fun _ => [⟨"t", "u", "ab"⟩])
    ⟨"ab".toList, "ab".toList, 1, "u", "t", "exact", 0⟩ (by decide)

/-- Claim C10: every match emitted by the web-search path has matchType
among exact, near_exact and paraphrased: the threshold filter in
_search_batch only lets similarities of at least 0.6 reach _classify_match,
whose semantic branch requires a smaller similarity. -/
theorem C10_no_semantic :
    (∀ s : ℚ, similarityThreshold ≤ s →
        classifyMatch s ≠ "semantic"
        ∧ (classifyMatch s = "exact" ∨ classifyMatch s = "near_exact"
            ∨ classifyMatch s = "paraphrased"))
    ∧ (∀ (sents : List (List Char)) (f : Nat → List SearchResult) (m : DMatch),
        m ∈ searchBatchMatches sents f →
        m.matchType ≠ "semantic"
        ∧ (m.matchType = "exact" ∨ m.matchType = "near_exact"
            ∨ m.matchType = "paraphrased")) := by
  constructor
  · exact fun s hs => classifyMatch_cases hs
  · intro sents f m hm
    obtain ⟨hθ, _, htype⟩ := mem_searchBatchMatches hm
    rw [htype]
    exact classifyMatch_cases hθ

/-- Claim C10 witness: the classification at similarity 0.7. -/
theorem C10_witness :
    similarityThreshold ≤ (7 : ℚ)/10
    ∧ classifyMatch ((7 : ℚ)/10) ≠ "semantic"
    ∧ (classifyMatch ((7 : ℚ)/10) = "exact" ∨ classifyMatch ((7 : ℚ)/10) = "near_exact"
        ∨ classifyMatch ((7 : ℚ)/10) = "paraphrased") :=
  ⟨by decide, (C10_no_semantic.1 _ (by decide)).1, (C10_no_semantic.1 _ (by decide)).2⟩

/-- Claim C7: the difflib ratio used for scoring is not symmetric, because
find_longest_match picks blocks greedily: the embedded algorithm gives
similarity 3/4 for ("aba", "babba") but 1/2 for ("babba", "aba"). -/
theorem C7_counterexample :
    calcSimilarity "aba".toList "babba".toList = 3/4
    ∧ calcSimilarity "babba".toList "aba".toList = 1/2
    ∧ calcSimilarity "aba".toList "babba".toList
        ≠ calcSimilarity "babba".toList "aba".toList := by
  refine ⟨by decide, by decide, by decide⟩

/-- Claim C7 amended: the sequence-similarity ratio satisfies
ratio(a,a) = 1 (hence so does the normalizing scorer on identical texts),
its value always lies in [0,1], and ratio(a,[]) = 0 for non-empty a;
symmetry, however, does not hold. -/
theorem C7_amended_ratio :
    (∀ a : List Char, seqSimilarity a a = 1)
    ∧ (∀ t : List Char, calcSimilarity t t = 1)
    ∧ (∀ a b : List Char, 0 ≤ seqSimilarity a b ∧ seqSimilarity a b ≤ 1)
    ∧ (∀ t1 t2 : List Char, 0 ≤ calcSimilarity t1 t2 ∧ calcSimilarity t1 t2 ≤ 1)
    ∧ (∀ a : List Char, a ≠ [] → seqSimilarity a [] = 0) :=
  ⟨seqSimilarity_self, calcSimilarity_self,
   fun a b => ⟨seqSimilarity_nonneg a b, seqSimilarity_le_one a b⟩,
   fun t1 t2 => ⟨calcSimilarity_nonneg t1 t2, calcSimilarity_le_one t1 t2⟩,
   seqSimilarity_empty⟩

/-- Claim C7 witness: the amended statement at concrete strings. -/
theorem C7_amended_witness :
    seqSimilarity "ab".toList "ab".toList = 1
    ∧ seqSimilarity "ab".toList [] = 0 :=
  ⟨C7_amended_ratio.1 "ab".toList,
   C7_amended_ratio.2.2.2.2 "ab".toList (by decide)⟩

end Plag
